import Mathlib

/-!
Shallow embedding of the sales-data cleaning pipeline
(`src/data_cleaning.py`).

A Record Table is an ordered sequence of rows over a list of column
names; each cell holds a text value, a numeric value, or null (pandas
`NaN`).  The four pipeline stages `load_data`, `clean_column_names`,
`handle_missing_values` and `remove_invalid_rows` are translated
function by function.  Pandas-specific semantics that the source relies
on are modelled explicitly:

* `df[df[c] >= 0]` keeps exactly the rows whose value in column `c` is
  a number `≥ 0` — a null (`NaN`) value compares false and the row is
  dropped;
* `df.dropna(subset=cols, how='all')` keeps a row iff some column of
  `cols` is non-null; with an empty `subset` every row is dropped;
* `astype(str)` turns `NaN` into the literal string `"nan"`;
* `pd.to_numeric(errors='coerce')` turns unparseable strings into null
  (numeric literals are modelled as integers);
* `df.replace(r'^\s*$', np.nan, regex=True)` nulls whitespace-only
  string cells only.
-/

/-- A cell of the Record Table: text, number, or null (`NaN`). -/
inductive Value where
  | str (s : String)
  | num (n : Int)
  | null
deriving DecidableEq

/-- The Record Table: ordered column names plus ordered rows; a row's
`j`-th entry is its value for the `j`-th column. -/
structure Table where
  cols : List String
  rows : List (List Value)
deriving DecidableEq

/-- Code points of the Python whitespace characters
(space, tab, LF, CR, VT, FF). -/
def wsCode (n : Nat) : Bool :=
  n == 32 || n == 9 || n == 10 || n == 13 || n == 11 || n == 12

/-- Python whitespace characters, identified by code point. -/
def pyWS (c : Char) : Bool := wsCode c.toNat

/-- ASCII lowercasing of one character (`str.lower`). -/
def pyCharLower (c : Char) : Char :=
  if 65 ≤ c.toNat ∧ c.toNat ≤ 90 then Char.ofNat (c.toNat + 32) else c

/-- One character of `str.replace(' ', '_')`. -/
def replChar (c : Char) : Char :=
  if c.toNat == 32 then '_' else c

/-- `str.strip()`: drop leading and trailing whitespace. -/
def stripChars (l : List Char) : List Char :=
  ((l.dropWhile pyWS).reverse.dropWhile pyWS).reverse

/-- `s.strip()` on strings. -/
def pyStripStr (s : String) : String := ⟨stripChars s.data⟩

/-- `s.lower()` on strings (ASCII). -/
def pyLowerStr (s : String) : String := ⟨s.data.map pyCharLower⟩

/-- `s.replace(' ', '_')` on strings. -/
def spaceToUnder (s : String) : String := ⟨s.data.map replChar⟩

/-- Column-name normalization: `.str.strip().str.lower().str.replace(' ', '_')`. -/
def cleanName (s : String) : String := spaceToUnder (pyLowerStr (pyStripStr s))

/-- Whether a string is empty or all whitespace (regex `^\s*$`). -/
def isBlankStr (s : String) : Bool := s.data.all pyWS

/-- `astype(str)` on one cell; pandas renders `NaN` as `"nan"`. -/
def stringify : Value → String
  | Value.str s => s
  | Value.num n => toString n
  | Value.null => "nan"

/-- Text-column cleaning `astype(str).str.strip().str.lower()` on one cell. -/
def cleanTextValue (v : Value) : Value :=
  Value.str (pyLowerStr (pyStripStr (stringify v)))

/-- The designated text columns cleaned by `clean_column_names`. -/
def textCols : List String := ["prodname", "category"]

/-- The critical columns of `handle_missing_values`. -/
def criticalCols : List String := ["price", "qty", "date_sold"]

/-- The designated numeric columns coerced by `handle_missing_values`. -/
def numericCols : List String := ["price", "qty"]

/-- Per-row effect of `clean_column_names`: rewrite the cells of the
designated text columns (checked against the already-renamed headers,
as the source reassigns `df.columns` first). -/
def cleanRowText (cols : List String) (r : List Value) : List Value :=
  List.zipWith (fun c v => if c ∈ textCols then cleanTextValue v else v) cols r

/-- `clean_column_names`: normalize headers, then clean `prodname` and
`category` cells. -/
def clean_column_names (T : Table) : Table :=
  { cols := T.cols.map cleanName
    rows := T.rows.map (cleanRowText (T.cols.map cleanName)) }

/-- `df.replace(r'^\s*$', np.nan, regex=True)` on one cell: only
whitespace-only strings become null. -/
def blankToNull : Value → Value
  | Value.str s => if isBlankStr s then Value.null else Value.str s
  | v => v

/-- Parse a nonempty run of decimal digits. -/
def parseDigits (l : List Char) : Option Nat :=
  if l.isEmpty then none
  else
    l.foldl
      (fun acc c =>
        acc.bind fun n =>
          if 48 ≤ c.toNat ∧ c.toNat ≤ 57 then some (n * 10 + (c.toNat - 48))
          else none)
      (some 0)

/-- Parse an optionally signed integer literal. -/
def parseIntChars : List Char → Option Int
  | '-' :: rest => (parseDigits rest).map (fun n => -(n : Int))
  | '+' :: rest => (parseDigits rest).map (fun n => (n : Int))
  | l => (parseDigits l).map (fun n => (n : Int))

/-- Numeric parsing as in `pd.to_numeric` (surrounding whitespace ignored). -/
def parseNumStr (s : String) : Option Int := parseIntChars (stripChars s.data)

/-- `pd.to_numeric(errors='coerce')` on one cell: numbers unchanged,
parseable strings converted, everything else null. -/
def coerceNum : Value → Value
  | Value.str s =>
    match parseNumStr s with
    | some n => Value.num n
    | none => Value.null
  | v => v

/-- Per-row effect of `handle_missing_values` before the drop: blank
cells to null everywhere, then numeric coercion on `price`/`qty`. -/
def hmRow (cols : List String) (r : List Value) : List Value :=
  List.zipWith
    (fun c v =>
      if c ∈ numericCols then coerceNum (blankToNull v) else blankToNull v)
    cols r

/-- The value of row `r` in column `c` (null when the column is absent). -/
def valueAt (cols : List String) (r : List Value) (c : String) : Value :=
  match (cols.zip r).find? (fun p => p.1 == c) with
  | some p => p.2
  | none => Value.null

/-- `df.dropna(subset=existing_critical_cols, how='all')` keep
condition: some critical column present in the table is non-null. -/
def keepCritical (cols : List String) (r : List Value) : Bool :=
  (criticalCols.filter (fun c => decide (c ∈ cols))).any
    (fun c => decide (valueAt cols r c ≠ Value.null))

/-- `handle_missing_values`: blank-to-null, numeric coercion, then drop
the rows whose present critical columns are all null. -/
def handle_missing_values (T : Table) : Table :=
  { cols := T.cols
    rows := (T.rows.map (hmRow T.cols)).filter (keepCritical T.cols) }

/-- Keep condition of `df[df[c] >= 0]`: the value is a number `≥ 0`
(null compares false in pandas, so null rows are dropped). -/
def keepNonNeg (cols : List String) (c : String) (r : List Value) : Bool :=
  match valueAt cols r c with
  | Value.num n => decide (0 ≤ n)
  | _ => false

/-- Keep condition of `df.dropna(subset=['date_sold'])`. -/
def keepDate (cols : List String) (r : List Value) : Bool :=
  decide (valueAt cols r "date_sold" ≠ Value.null)

/-- One presence-guarded row filter, the shape of each block of
`remove_invalid_rows`. -/
def filterIf (c : String) (keep : List String → List Value → Bool)
    (T : Table) : Table :=
  if c ∈ T.cols then
    { cols := T.cols, rows := T.rows.filter (keep T.cols) }
  else T

/-- The negative-quantity filter of `remove_invalid_rows`. -/
def filterQty (T : Table) : Table :=
  filterIf "qty" (fun cols r => keepNonNeg cols "qty" r) T

/-- The negative-price filter of `remove_invalid_rows`. -/
def filterPrice (T : Table) : Table :=
  filterIf "price" (fun cols r => keepNonNeg cols "price" r) T

/-- The missing-sale-date filter of `remove_invalid_rows`. -/
def filterDate (T : Table) : Table :=
  filterIf "date_sold" keepDate T

/-- `remove_invalid_rows`: qty filter, then price filter, then date filter. -/
def remove_invalid_rows (T : Table) : Table :=
  filterDate (filterPrice (filterQty T))

/-- The in-memory cleaning pipeline applied by the script's main block. -/
def pipeline (T : Table) : Table :=
  remove_invalid_rows (handle_missing_values (clean_column_names T))

/-- The two error kinds `load_data` can raise. -/
inductive LoadErr where
  | invalidFormat
  | notFound
deriving DecidableEq

/-- `str(filepath).endswith('.csv')`. -/
def csvSuffix (p : String) : Bool := List.isSuffixOf ".csv".data p.data

/-- `load_data`, abstracted over the file system (`fsExists`) and the
CSV parser (`readCsv`): extension check first, then existence check,
then parse. -/
def load_data (fsExists : String → Bool) (readCsv : String → Table)
    (p : String) : Except LoadErr Table :=
  if ¬ csvSuffix p then Except.error LoadErr.invalidFormat
  else if ¬ fsExists p then Except.error LoadErr.notFound
  else Except.ok (readCsv p)

/-- The spec's two-row scenario input
`[{price: " 5 ", qty: -1, date_sold: "2024-01-01"},
  {price: "abc", qty: 2, date_sold: ""}]`. -/
def scenarioTable : Table :=
  { cols := ["price", "qty", "date_sold"]
    rows := [[Value.str " 5 ", Value.num (-1), Value.str "2024-01-01"],
             [Value.str "abc", Value.num 2, Value.str ""]] }

/-- Per-cell invariant of the pipeline output for column `c`: the cell
is blank-normalized; a text-column cell is null or a stripped,
lowercased string; a numeric-column cell is null or a number. -/
def valOK (c : String) (v : Value) : Prop :=
  blankToNull v = v ∧
  (c ∈ textCols → v = Value.null ∨
    ∃ s, v = Value.str s ∧ stripChars s.data = s.data ∧
      s.data.map pyCharLower = s.data) ∧
  (c ∈ numericCols → v = Value.null ∨ ∃ n, v = Value.num n)

/-! ### Character-level lemmas -/

theorem wsCode_iff (n : Nat) :
    wsCode n = true ↔ (n = 32 ∨ n = 9 ∨ n = 10 ∨ n = 13 ∨ n = 11 ∨ n = 12) := by
  simp only [wsCode, Bool.or_eq_true, beq_iff_eq]
  tauto

theorem toNat_ofNat_le (n : Nat) (h : n ≤ 122) : (Char.ofNat n).toNat = n := by
  have hv : n.isValidChar := Or.inl (by omega)
  unfold Char.ofNat
  rw [dif_pos hv]
  rfl

theorem pyCharLower_toNat (c : Char) :
    (pyCharLower c).toNat =
      if 65 ≤ c.toNat ∧ c.toNat ≤ 90 then c.toNat + 32 else c.toNat := by
  unfold pyCharLower
  split
  · next h => exact toNat_ofNat_le _ (by omega)
  · rfl

theorem pyCharLower_eq_self (c : Char) (h : ¬(65 ≤ c.toNat ∧ c.toNat ≤ 90)) :
    pyCharLower c = c := if_neg h

theorem pyCharLower_idem (c : Char) :
    pyCharLower (pyCharLower c) = pyCharLower c := by
  apply pyCharLower_eq_self
  rw [pyCharLower_toNat]
  split <;> omega

theorem pyWS_pyCharLower (c : Char) : pyWS (pyCharLower c) = pyWS c := by
  unfold pyWS
  rw [pyCharLower_toNat]
  split
  · next h =>
    have h1 : wsCode (c.toNat + 32) = false := by
      rw [Bool.eq_false_iff]
      intro hw
      rw [wsCode_iff] at hw
      omega
    have h2 : wsCode c.toNat = false := by
      rw [Bool.eq_false_iff]
      intro hw
      rw [wsCode_iff] at hw
      omega
    rw [h1, h2]
  · rfl

theorem replChar_toNat (c : Char) :
    (replChar c).toNat = if c.toNat = 32 then 95 else c.toNat := by
  unfold replChar
  rcases h : c.toNat == 32 with _ | _
  · simp only [Bool.false_eq_true, if_false]
    rw [if_neg (by simpa using h)]
  · simp only [if_true]
    rw [if_pos (by simpa using h)]
    rfl

theorem replChar_eq_self (c : Char) (h : c.toNat ≠ 32) : replChar c = c := by
  unfold replChar
  rw [if_neg (by simpa using h)]

theorem pyWS_false_of_toNat (c : Char)
    (h : c.toNat ≠ 32 ∧ c.toNat ≠ 9 ∧ c.toNat ≠ 10 ∧ c.toNat ≠ 13 ∧
      c.toNat ≠ 11 ∧ c.toNat ≠ 12) : pyWS c = false := by
  unfold pyWS
  rw [Bool.eq_false_iff]
  intro hw
  rw [wsCode_iff] at hw
  omega

theorem pyWS_toNat_ne (c : Char) (h : pyWS c = false) :
    c.toNat ≠ 32 ∧ c.toNat ≠ 9 ∧ c.toNat ≠ 10 ∧ c.toNat ≠ 13 ∧
      c.toNat ≠ 11 ∧ c.toNat ≠ 12 := by
  have h' : ¬(wsCode c.toNat = true) := by
    intro hw
    unfold pyWS at h
    rw [hw] at h
    simp at h
  rw [wsCode_iff] at h'
  push_neg at h'
  exact ⟨h'.1, h'.2.1, h'.2.2.1, h'.2.2.2.1, h'.2.2.2.2.1, h'.2.2.2.2.2⟩

theorem replChar_of_not_ws (c : Char) (h : pyWS c = false) : replChar c = c :=
  replChar_eq_self c (pyWS_toNat_ne c h).1

theorem replChar_idem (c : Char) : replChar (replChar c) = replChar c := by
  apply replChar_eq_self
  rw [replChar_toNat]
  split <;> omega

theorem pyCharLower_replChar (c : Char) :
    pyCharLower (replChar c) = replChar (pyCharLower c) := by
  by_cases h : c.toNat = 32
  · have h1 : replChar c = '_' := by
      unfold replChar
      rw [if_pos (by simpa using h)]
    have h2 : pyCharLower c = c := pyCharLower_eq_self c (by omega)
    rw [h1, h2, h1]
    exact pyCharLower_eq_self '_' (by decide)
  · have h1 : replChar c = c := replChar_eq_self c h
    have h2 : replChar (pyCharLower c) = pyCharLower c := by
      apply replChar_eq_self
      rw [pyCharLower_toNat]
      split <;> omega
    rw [h1, h2]

theorem not_upper_pyCharLower (c : Char) :
    ¬(65 ≤ (pyCharLower c).toNat ∧ (pyCharLower c).toNat ≤ 90) := by
  rw [pyCharLower_toNat]
  split <;> omega

theorem not_upper_replChar (c : Char)
    (h : ¬(65 ≤ c.toNat ∧ c.toNat ≤ 90)) :
    ¬(65 ≤ (replChar c).toNat ∧ (replChar c).toNat ≤ 90) := by
  rw [replChar_toNat]
  split <;> omega

theorem replChar_ne_space (c : Char) : replChar c ≠ ' ' := by
  intro h
  have := congrArg Char.toNat h
  rw [replChar_toNat] at this
  have hs : (' ' : Char).toNat = 32 := by decide
  rw [hs] at this
  split at this <;> omega

/-! ### Strip / list lemmas -/

theorem dropWhile_eq_self_of_head (p : Char → Bool) (l : List Char)
    (h : ∀ a ∈ l.head?, p a = false) : l.dropWhile p = l := by
  cases l with
  | nil => rfl
  | cons a t =>
    rw [List.dropWhile_cons, h a rfl]
    simp

theorem head?_dropWhile (p : Char → Bool) (l : List Char) :
    ∀ a ∈ (l.dropWhile p).head?, p a = false := by
  induction l with
  | nil => intro a ha; simp at ha
  | cons b t ih =>
    intro a ha
    rw [List.dropWhile_cons] at ha
    by_cases hb : p b
    · rw [if_pos hb] at ha
      exact ih a ha
    · rw [if_neg hb] at ha
      simp at ha
      subst ha
      simpa using hb

theorem getLast?_dropWhile (p : Char → Bool) (l : List Char) :
    l.dropWhile p = [] ∨ (l.dropWhile p).getLast? = l.getLast? := by
  induction l with
  | nil => exact Or.inl rfl
  | cons b t ih =>
    rw [List.dropWhile_cons]
    by_cases hb : p b
    · rw [if_pos hb]
      cases t with
      | nil => exact Or.inl rfl
      | cons c u =>
        rcases ih with h | h
        · exact Or.inl h
        · right
          rw [h, List.getLast?_cons_cons]
    · rw [if_neg hb]
      exact Or.inr rfl

theorem stripChars_eq_self (l : List Char)
    (h1 : ∀ a ∈ l.head?, pyWS a = false)
    (h2 : ∀ a ∈ l.getLast?, pyWS a = false) : stripChars l = l := by
  unfold stripChars
  rw [dropWhile_eq_self_of_head pyWS l h1]
  rw [dropWhile_eq_self_of_head pyWS l.reverse (by
    intro a ha
    rw [List.head?_reverse] at ha
    exact h2 a ha)]
  exact List.reverse_reverse l

theorem head?_stripChars (l : List Char) :
    ∀ a ∈ (stripChars l).head?, pyWS a = false := by
  intro a ha
  unfold stripChars at ha
  rw [List.head?_reverse] at ha
  rcases getLast?_dropWhile pyWS (l.dropWhile pyWS).reverse with h | h
  · rw [h] at ha
    simp at ha
  · rw [h, List.getLast?_reverse] at ha
    exact head?_dropWhile pyWS l a ha

theorem getLast?_stripChars (l : List Char) :
    ∀ a ∈ (stripChars l).getLast?, pyWS a = false := by
  intro a ha
  unfold stripChars at ha
  rw [List.getLast?_reverse] at ha
  exact head?_dropWhile pyWS (l.dropWhile pyWS).reverse a ha

theorem stripChars_idem (l : List Char) :
    stripChars (stripChars l) = stripChars l :=
  stripChars_eq_self (stripChars l) (head?_stripChars l) (getLast?_stripChars l)

theorem getElem?_zipWith_of {α β γ : Type} (f : α → β → γ) :
    ∀ (l₁ : List α) (l₂ : List β) (j : Nat) (a : α) (b : β),
      l₁[j]? = some a → l₂[j]? = some b →
      (List.zipWith f l₁ l₂)[j]? = some (f a b) := by
  intro l₁
  induction l₁ with
  | nil => intro l₂ j a b h1 _; simp at h1
  | cons x t ih =>
    intro l₂ j a b h1 h2
    cases l₂ with
    | nil => simp at h2
    | cons y u =>
      cases j with
      | zero =>
        rw [List.getElem?_cons_zero] at h1 h2
        rw [List.zipWith_cons_cons, List.getElem?_cons_zero]
        rw [Option.some_inj] at h1 h2
        rw [h1, h2]
      | succ n =>
        rw [List.getElem?_cons_succ] at h1 h2
        rw [List.zipWith_cons_cons, List.getElem?_cons_succ]
        exact ih u n a b h1 h2

theorem getElem?_zipWith_some {α β γ : Type} (f : α → β → γ) :
    ∀ (l₁ : List α) (l₂ : List β) (j : Nat) (x : γ),
      (List.zipWith f l₁ l₂)[j]? = some x →
      ∃ a b, l₁[j]? = some a ∧ l₂[j]? = some b ∧ x = f a b := by
  intro l₁
  induction l₁ with
  | nil => intro l₂ j x h; simp at h
  | cons a t ih =>
    intro l₂ j x h
    cases l₂ with
    | nil => simp at h
    | cons b u =>
      cases j with
      | zero =>
        rw [List.zipWith_cons_cons, List.getElem?_cons_zero, Option.some_inj] at h
        exact ⟨a, b, List.getElem?_cons_zero, List.getElem?_cons_zero, h.symm⟩
      | succ n =>
        rw [List.zipWith_cons_cons, List.getElem?_cons_succ] at h
        simp only [List.getElem?_cons_succ]
        exact ih u n x h

theorem zipWith_eq_right {α β : Type} (f : α → β → β) :
    ∀ (l₁ : List α) (l₂ : List β), l₂.length ≤ l₁.length →
      (∀ (j : Nat) (a : α) (b : β), l₁[j]? = some a → l₂[j]? = some b → f a b = b) →
      List.zipWith f l₁ l₂ = l₂ := by
  intro l₁
  induction l₁ with
  | nil =>
    intro l₂ hlen _
    simp at hlen
    rw [hlen]
    rfl
  | cons a t ih =>
    intro l₂ hlen h
    cases l₂ with
    | nil => rfl
    | cons b u =>
      have h0 : f a b = b := h 0 a b (by simp) (by simp)
      rw [List.zipWith_cons_cons, h0]
      rw [ih u (by simpa using hlen) (fun j x y hx hy =>
        h (j + 1) x y (by simpa using hx) (by simpa using hy))]

/-! ### Lemmas on `cleanName` and cell-level operations -/

theorem cleanName_data (s : String) :
    (cleanName s).data = ((stripChars s.data).map pyCharLower).map replChar := rfl

theorem pyWS_clean_char (b : Char) (h : pyWS b = false) :
    pyWS (replChar (pyCharLower b)) = false := by
  have h1 : pyWS (pyCharLower b) = false := by
    rw [pyWS_pyCharLower]
    exact h
  rw [replChar_of_not_ws _ h1]
  exact h1

theorem head?_cleanName (s : String) :
    ∀ a ∈ (cleanName s).data.head?, pyWS a = false := by
  intro a ha
  rw [cleanName_data, List.head?_map, List.head?_map] at ha
  rcases hh : (stripChars s.data).head? with _ | b
  · rw [hh] at ha
    simp at ha
  · rw [hh] at ha
    simp at ha
    subst ha
    exact pyWS_clean_char b (head?_stripChars s.data b (by simp [hh]))

theorem getLast?_cleanName (s : String) :
    ∀ a ∈ (cleanName s).data.getLast?, pyWS a = false := by
  intro a ha
  rw [cleanName_data, List.getLast?_map, List.getLast?_map] at ha
  rcases hh : (stripChars s.data).getLast? with _ | b
  · rw [hh] at ha
    simp at ha
  · rw [hh] at ha
    simp at ha
    subst ha
    exact pyWS_clean_char b (getLast?_stripChars s.data b (by simp [hh]))

theorem pyStripStr_cleanName (s : String) :
    pyStripStr (cleanName s) = cleanName s := by
  show (⟨stripChars (cleanName s).data⟩ : String) = cleanName s
  rw [stripChars_eq_self _ (head?_cleanName s) (getLast?_cleanName s)]

theorem pyLowerStr_cleanName (s : String) :
    pyLowerStr (cleanName s) = cleanName s := by
  show (⟨(cleanName s).data.map pyCharLower⟩ : String) = cleanName s
  have h : ∀ c ∈ (cleanName s).data, pyCharLower c = c := by
    intro c hc
    rw [cleanName_data] at hc
    rcases List.mem_map.mp hc with ⟨b, hb, rfl⟩
    rcases List.mem_map.mp hb with ⟨a, _, rfl⟩
    rw [pyCharLower_replChar, pyCharLower_idem]
  rw [show (cleanName s).data.map pyCharLower = (cleanName s).data.map id from
    List.map_congr_left h, List.map_id]

theorem spaceToUnder_cleanName (s : String) :
    spaceToUnder (cleanName s) = cleanName s := by
  show (⟨(cleanName s).data.map replChar⟩ : String) = cleanName s
  have h : ∀ c ∈ (cleanName s).data, replChar c = c := by
    intro c hc
    rw [cleanName_data] at hc
    rcases List.mem_map.mp hc with ⟨b, _, rfl⟩
    exact replChar_idem b
  rw [show (cleanName s).data.map replChar = (cleanName s).data.map id from
    List.map_congr_left h, List.map_id]

theorem cleanName_idem (s : String) : cleanName (cleanName s) = cleanName s := by
  show spaceToUnder (pyLowerStr (pyStripStr (cleanName s))) = cleanName s
  rw [pyStripStr_cleanName, pyLowerStr_cleanName, spaceToUnder_cleanName]

theorem cleanName_not_upper (s : String) :
    ∀ c ∈ (cleanName s).data, ¬(65 ≤ c.toNat ∧ c.toNat ≤ 90) := by
  intro c hc
  rw [cleanName_data] at hc
  rcases List.mem_map.mp hc with ⟨b, hb, rfl⟩
  rcases List.mem_map.mp hb with ⟨a, _, rfl⟩
  exact not_upper_replChar _ (not_upper_pyCharLower a)

theorem cleanName_no_space (s : String) : ' ' ∉ (cleanName s).data := by
  intro hc
  rw [cleanName_data] at hc
  rcases List.mem_map.mp hc with ⟨b, _, hb⟩
  exact replChar_ne_space b hb

theorem blankToNull_idem (v : Value) :
    blankToNull (blankToNull v) = blankToNull v := by
  cases v with
  | str s =>
    by_cases h : isBlankStr s <;> simp [blankToNull, h]
  | num n => rfl
  | null => rfl

theorem coerceNum_shape (v : Value) :
    coerceNum v = Value.null ∨ ∃ n, coerceNum v = Value.num n := by
  cases v with
  | str s =>
    rcases h : parseNumStr s with _ | n
    · exact Or.inl (by simp [coerceNum, h])
    · exact Or.inr ⟨n, by simp [coerceNum, h]⟩
  | num n => exact Or.inr ⟨n, rfl⟩
  | null => exact Or.inl rfl

theorem blankToNull_coerceNum (v : Value) :
    blankToNull (coerceNum v) = coerceNum v := by
  rcases coerceNum_shape v with h | ⟨n, h⟩ <;> rw [h] <;> rfl

theorem strip_map_lower_strip (l : List Char) :
    stripChars ((stripChars l).map pyCharLower) = (stripChars l).map pyCharLower := by
  apply stripChars_eq_self
  · intro a ha
    rw [List.head?_map] at ha
    rcases hh : (stripChars l).head? with _ | b
    · rw [hh] at ha
      simp at ha
    · rw [hh] at ha
      simp at ha
      subst ha
      rw [pyWS_pyCharLower]
      exact head?_stripChars l b (by simp [hh])
  · intro a ha
    rw [List.getLast?_map] at ha
    rcases hh : (stripChars l).getLast? with _ | b
    · rw [hh] at ha
      simp at ha
    · rw [hh] at ha
      simp at ha
      subst ha
      rw [pyWS_pyCharLower]
      exact getLast?_stripChars l b (by simp [hh])

theorem map_pyCharLower_idem (l : List Char) :
    (l.map pyCharLower).map pyCharLower = l.map pyCharLower := by
  rw [List.map_map]
  apply List.map_congr_left
  intro a _
  show pyCharLower (pyCharLower a) = pyCharLower a
  exact pyCharLower_idem a

theorem cleanTextValue_shape (v : Value) :
    ∃ s, cleanTextValue v = Value.str s ∧ stripChars s.data = s.data ∧
      s.data.map pyCharLower = s.data := by
  refine ⟨pyLowerStr (pyStripStr (stringify v)), rfl, ?_, ?_⟩
  · show stripChars ((stripChars (stringify v).data).map pyCharLower) =
      (stripChars (stringify v).data).map pyCharLower
    exact strip_map_lower_strip (stringify v).data
  · show ((stripChars (stringify v).data).map pyCharLower).map pyCharLower =
      (stripChars (stringify v).data).map pyCharLower
    exact map_pyCharLower_idem (stripChars (stringify v).data)

theorem cleanTextValue_fixed (s : String)
    (h1 : stripChars s.data = s.data) (h2 : s.data.map pyCharLower = s.data) :
    cleanTextValue (Value.str s) = Value.str s := by
  show Value.str (⟨(stripChars s.data).map pyCharLower⟩ : String) = Value.str s
  rw [h1, h2]

/-! ### Table-level lemmas -/

theorem cols_clean (T : Table) :
    (clean_column_names T).cols = T.cols.map cleanName := rfl

theorem cols_hm (T : Table) : (handle_missing_values T).cols = T.cols := rfl

theorem cols_filterIf (c : String) (k : List String → List Value → Bool)
    (T : Table) : (filterIf c k T).cols = T.cols := by
  unfold filterIf
  split <;> rfl

theorem cols_remove_invalid (T : Table) :
    (remove_invalid_rows T).cols = T.cols := by
  unfold remove_invalid_rows filterDate filterPrice filterQty
  rw [cols_filterIf, cols_filterIf, cols_filterIf]

theorem cols_pipeline (T : Table) :
    (pipeline T).cols = T.cols.map cleanName := by
  unfold pipeline
  rw [cols_remove_invalid, cols_hm, cols_clean]

theorem rows_filterIf_sublist (c : String) (k : List String → List Value → Bool)
    (T : Table) : List.Sublist (filterIf c k T).rows T.rows := by
  unfold filterIf
  split
  · exact List.filter_sublist _
  · exact List.Sublist.refl _

theorem mem_rows_filterIf (c : String) (k : List String → List Value → Bool)
    (T : Table) (r : List Value) (h : r ∈ (filterIf c k T).rows) : r ∈ T.rows :=
  (rows_filterIf_sublist c k T).subset h

theorem mem_rows_filterIf_pos (c : String) (k : List String → List Value → Bool)
    (T : Table) (hc : c ∈ T.cols) (r : List Value) :
    r ∈ (filterIf c k T).rows ↔ r ∈ T.rows ∧ k T.cols r = true := by
  unfold filterIf
  rw [if_pos hc]
  exact List.mem_filter

theorem rows_remove_invalid_sublist (T : Table) :
    List.Sublist (remove_invalid_rows T).rows T.rows := by
  unfold remove_invalid_rows filterDate filterPrice filterQty
  exact ((rows_filterIf_sublist _ _ _).trans
    (rows_filterIf_sublist _ _ _)).trans (rows_filterIf_sublist _ _ _)

theorem mem_rows_remove_invalid (T : Table) (r : List Value)
    (h : r ∈ (remove_invalid_rows T).rows) : r ∈ T.rows :=
  (rows_remove_invalid_sublist T).subset h

theorem remove_invalid_keep (T : Table) (r : List Value)
    (hr : r ∈ (remove_invalid_rows T).rows) :
    ("qty" ∈ T.cols → keepNonNeg T.cols "qty" r = true) ∧
    ("price" ∈ T.cols → keepNonNeg T.cols "price" r = true) ∧
    ("date_sold" ∈ T.cols → keepDate T.cols r = true) := by
  have hAc : (filterQty T).cols = T.cols := cols_filterIf _ _ T
  have hBc : (filterPrice (filterQty T)).cols = T.cols := by
    unfold filterPrice
    rw [cols_filterIf, hAc]
  have hrB : r ∈ (filterPrice (filterQty T)).rows :=
    mem_rows_filterIf _ _ _ r hr
  have hrA : r ∈ (filterQty T).rows := mem_rows_filterIf _ _ _ r hrB
  refine ⟨?_, ?_, ?_⟩
  · intro hq
    have := ((mem_rows_filterIf_pos "qty" _ T hq r).mp hrA).2
    exact this
  · intro hp
    have hp' : "price" ∈ (filterQty T).cols := by rw [hAc]; exact hp
    have := ((mem_rows_filterIf_pos "price" _ (filterQty T) hp' r).mp hrB).2
    rw [hAc] at this
    exact this
  · intro hd
    have hd' : "date_sold" ∈ (filterPrice (filterQty T)).cols := by
      rw [hBc]; exact hd
    have := ((mem_rows_filterIf_pos "date_sold" _
      (filterPrice (filterQty T)) hd' r).mp hr).2
    rw [hBc] at this
    exact this

theorem filterIf_pos_eq (c : String) (k : List String → List Value → Bool)
    (T : Table) (h : c ∈ T.cols) :
    filterIf c k T = { cols := T.cols, rows := T.rows.filter (k T.cols) } := by
  unfold filterIf
  rw [if_pos h]

theorem filterIf_neg_eq (c : String) (k : List String → List Value → Bool)
    (T : Table) (h : c ∉ T.cols) : filterIf c k T = T := by
  unfold filterIf
  rw [if_neg h]

theorem filterIf_comm (c₁ c₂ : String)
    (k₁ k₂ : List String → List Value → Bool) (T : Table) :
    filterIf c₁ k₁ (filterIf c₂ k₂ T) = filterIf c₂ k₂ (filterIf c₁ k₁ T) := by
  by_cases h1 : c₁ ∈ T.cols
  · by_cases h2 : c₂ ∈ T.cols
    · rw [filterIf_pos_eq c₂ k₂ T h2, filterIf_pos_eq c₁ k₁ T h1]
      rw [filterIf_pos_eq c₁ k₁
        { cols := T.cols, rows := T.rows.filter (k₂ T.cols) } h1]
      rw [filterIf_pos_eq c₂ k₂
        { cols := T.cols, rows := T.rows.filter (k₁ T.cols) } h2]
      have hrows : (T.rows.filter (k₂ T.cols)).filter (k₁ T.cols)
          = (T.rows.filter (k₁ T.cols)).filter (k₂ T.cols) := by
        rw [List.filter_filter, List.filter_filter]
        exact List.filter_congr (fun a _ => Bool.and_comm _ _)
      rw [hrows]
    · rw [filterIf_neg_eq c₂ k₂ T h2]
      rw [filterIf_neg_eq c₂ k₂ (filterIf c₁ k₁ T) (by
        rw [cols_filterIf]; exact h2)]
  · rw [filterIf_neg_eq c₁ k₁ T h1]
    rw [filterIf_neg_eq c₁ k₁ (filterIf c₂ k₂ T) (by
      rw [cols_filterIf]; exact h1)]

theorem clean_eq_self (U : Table) (hc : U.cols.map cleanName = U.cols)
    (hr : ∀ r ∈ U.rows, cleanRowText U.cols r = r) : clean_column_names U = U := by
  unfold clean_column_names
  rw [hc]
  rw [show U.rows.map (cleanRowText U.cols) = U.rows.map id from
    List.map_congr_left hr, List.map_id]

theorem hm_eq_self (U : Table) (hr : ∀ r ∈ U.rows, hmRow U.cols r = r)
    (hk : ∀ r ∈ U.rows, keepCritical U.cols r = true) :
    handle_missing_values U = U := by
  unfold handle_missing_values
  rw [show U.rows.map (hmRow U.cols) = U.rows.map id from
    List.map_congr_left hr, List.map_id]
  rw [List.filter_eq_self.mpr hk]

theorem filterIf_eq_self (c : String) (k : List String → List Value → Bool)
    (U : Table) (h : ∀ r ∈ U.rows, k U.cols r = true) : filterIf c k U = U := by
  unfold filterIf
  split
  · rw [List.filter_eq_self.mpr h]
  · rfl

/-! ### Pipeline invariants -/

theorem mem_zip_of_getElem? {α β : Type} (l₁ : List α) (l₂ : List β)
    (j : Nat) (a : α) (b : β) (h1 : l₁[j]? = some a) (h2 : l₂[j]? = some b) :
    (a, b) ∈ l₁.zip l₂ :=
  List.getElem?_mem (getElem?_zipWith_of Prod.mk l₁ l₂ j a b h1 h2)

theorem text_not_numeric (c : String) (h : c ∈ textCols) : c ∉ numericCols := by
  intro hn
  simp only [textCols, List.mem_cons, List.mem_singleton] at h
  rcases h with rfl | h
  · exact absurd hn (by decide)
  · simp only [List.not_mem_nil, or_false] at h
    subst h
    exact absurd hn (by decide)

theorem pipeline_valOK (T : Table) :
    ∀ r ∈ (pipeline T).rows,
      r.length ≤ (pipeline T).cols.length ∧
      (∀ (j : Nat) (c : String) (v : Value),
        (pipeline T).cols[j]? = some c → r[j]? = some v → valOK c v) := by
  intro r hr
  have hcols : (pipeline T).cols = T.cols.map cleanName := cols_pipeline T
  have hr' : r ∈ (remove_invalid_rows
      (handle_missing_values (clean_column_names T))).rows := hr
  have hr1 : r ∈ (handle_missing_values (clean_column_names T)).rows :=
    mem_rows_remove_invalid _ r hr'
  have hr1' : r ∈ ((clean_column_names T).rows.map
      (hmRow (T.cols.map cleanName))).filter
        (keepCritical (T.cols.map cleanName)) := hr1
  have hr2 : r ∈ (clean_column_names T).rows.map (hmRow (T.cols.map cleanName)) :=
    (List.mem_filter.mp hr1').1
  rcases List.mem_map.mp hr2 with ⟨r₁, hr₁mem, rfl⟩
  have hr₁mem' : r₁ ∈ T.rows.map (cleanRowText (T.cols.map cleanName)) := hr₁mem
  rcases List.mem_map.mp hr₁mem' with ⟨r₀, _, rfl⟩
  constructor
  · rw [hcols]
    have hlen : (hmRow (T.cols.map cleanName)
        (cleanRowText (T.cols.map cleanName) r₀)).length
        = min (T.cols.map cleanName).length
            (cleanRowText (T.cols.map cleanName) r₀).length :=
      List.length_zipWith _ _ _
    omega
  · intro j c v hc hv
    rw [hcols] at hc
    rcases getElem?_zipWith_some _ (T.cols.map cleanName)
      (cleanRowText (T.cols.map cleanName) r₀) j v hv with ⟨c', v₁, hc', hv₁, rfl⟩
    have hcc : c = c' := by
      rw [hc] at hc'
      exact Option.some_inj.mp hc'
    subst hcc
    refine ⟨?_, ?_, ?_⟩
    · by_cases hnum : c ∈ numericCols
      · show blankToNull (if c ∈ numericCols then coerceNum (blankToNull v₁)
          else blankToNull v₁) = _
        rw [if_pos hnum]
        rw [blankToNull_coerceNum]
      · show blankToNull (if c ∈ numericCols then coerceNum (blankToNull v₁)
          else blankToNull v₁) = _
        rw [if_neg hnum]
        rw [blankToNull_idem]
    · intro htext
      have hnum : c ∉ numericCols := text_not_numeric c htext
      show (if c ∈ numericCols then coerceNum (blankToNull v₁)
          else blankToNull v₁) = Value.null ∨ _
      rw [if_neg hnum]
      rcases getElem?_zipWith_some _ (T.cols.map cleanName) r₀ j v₁ hv₁
        with ⟨c'', v₀, hc'', hv₀, rfl⟩
      have hcc : c = c'' := by
        rw [hc] at hc''
        exact Option.some_inj.mp hc''
      subst hcc
      show blankToNull (if c ∈ textCols then cleanTextValue v₀ else v₀)
          = Value.null ∨ _
      rw [if_pos htext]
      rcases cleanTextValue_shape v₀ with ⟨s, hs, hstrip, hlower⟩
      rw [hs]
      by_cases hb : isBlankStr s
      · left
        simp [blankToNull, hb]
      · right
        exact ⟨s, by simp [blankToNull, hb], hstrip, hlower⟩
    · intro hnum
      show (if c ∈ numericCols then coerceNum (blankToNull v₁)
          else blankToNull v₁) = Value.null ∨ _
      rw [if_pos hnum]
      exact coerceNum_shape (blankToNull v₁)

theorem pipeline_keep (T : Table) :
    ∀ r ∈ (pipeline T).rows,
      keepCritical (T.cols.map cleanName) r = true ∧
      ("qty" ∈ T.cols.map cleanName →
        keepNonNeg (T.cols.map cleanName) "qty" r = true) ∧
      ("price" ∈ T.cols.map cleanName →
        keepNonNeg (T.cols.map cleanName) "price" r = true) ∧
      ("date_sold" ∈ T.cols.map cleanName →
        keepDate (T.cols.map cleanName) r = true) := by
  intro r hr
  have hr' : r ∈ (remove_invalid_rows
      (handle_missing_values (clean_column_names T))).rows := hr
  have hker := remove_invalid_keep (handle_missing_values (clean_column_names T)) r hr'
  have hr1 : r ∈ (handle_missing_values (clean_column_names T)).rows :=
    mem_rows_remove_invalid _ r hr'
  have hr1' : r ∈ ((clean_column_names T).rows.map
      (hmRow (T.cols.map cleanName))).filter
        (keepCritical (T.cols.map cleanName)) := hr1
  exact ⟨(List.mem_filter.mp hr1').2, hker.1, hker.2.1, hker.2.2⟩

/-! ### Claim C4 -/

/-- C4 (counterexample): the three-stage pipeline is not idempotent at
the table level.  On the table with columns `prodname`, `qty` and the
single row `[" ", 1]`, one pass leaves a null `prodname` cell (the
blank string is nulled by `handle_missing_values`), and the second
pass's `astype(str)` turns that null into the text `"nan"`, so the
second pass changes the table. -/
theorem C4_counterexample :
    pipeline (pipeline ⟨["prodname", "qty"], [[Value.str " ", Value.num 1]]⟩)
      ≠ pipeline (⟨["prodname", "qty"], [[Value.str " ", Value.num 1]]⟩ : Table) := by
  decide

/-- C4 (amended): the pipeline is idempotent on every table whose
one-pass output has no null cell in a `prodname`/`category` column —
in particular on every table without those columns.  (The only source
of non-idempotence is `astype(str)` stringifying null text cells to
`"nan"` on the second pass.) -/
theorem C4_pipeline_idem (T : Table)
    (hText : ∀ r ∈ (pipeline T).rows, ∀ p ∈ ((pipeline T).cols).zip r,
      p.1 ∈ textCols → p.2 ≠ Value.null) :
    pipeline (pipeline T) = pipeline T := by
  have hval := pipeline_valOK T
  have hkeep := pipeline_keep T
  have hcols : (pipeline T).cols = T.cols.map cleanName := cols_pipeline T
  have hA : clean_column_names (pipeline T) = pipeline T := by
    apply clean_eq_self
    · rw [hcols, List.map_map]
      apply List.map_congr_left
      intro a _
      show cleanName (cleanName a) = cleanName a
      exact cleanName_idem a
    · intro r hr
      apply zipWith_eq_right
      · exact (hval r hr).1
      · intro j c v hc hv
        by_cases htext : c ∈ textCols
        · have hne : v ≠ Value.null :=
            hText r hr (c, v) (mem_zip_of_getElem? _ _ j c v hc hv) htext
          have h2 := ((hval r hr).2 j c v hc hv).2.1 htext
          rcases h2 with h2 | ⟨s, rfl, hstrip, hlower⟩
          · exact absurd h2 hne
          · show (if c ∈ textCols then cleanTextValue (Value.str s)
                else Value.str s) = Value.str s
            rw [if_pos htext]
            exact cleanTextValue_fixed s hstrip hlower
        · show (if c ∈ textCols then cleanTextValue v else v) = v
          rw [if_neg htext]
  have hB : handle_missing_values (pipeline T) = pipeline T := by
    apply hm_eq_self
    · intro r hr
      apply zipWith_eq_right
      · exact (hval r hr).1
      · intro j c v hc hv
        have hOK := (hval r hr).2 j c v hc hv
        by_cases hnum : c ∈ numericCols
        · show (if c ∈ numericCols then coerceNum (blankToNull v)
              else blankToNull v) = v
          rw [if_pos hnum]
          rcases hOK.2.2 hnum with rfl | ⟨n, rfl⟩
          · rfl
          · rfl
        · show (if c ∈ numericCols then coerceNum (blankToNull v)
              else blankToNull v) = v
          rw [if_neg hnum]
          exact hOK.1
    · intro r hr
      rw [hcols]
      exact (hkeep r hr).1
  have hq : filterQty (pipeline T) = pipeline T := by
    by_cases hqty : "qty" ∈ (pipeline T).cols
    · apply filterIf_eq_self
      intro r hr
      rw [hcols]
      exact (hkeep r hr).2.1 (by rw [← hcols]; exact hqty)
    · exact filterIf_neg_eq _ _ _ hqty
  have hp : filterPrice (pipeline T) = pipeline T := by
    by_cases hprice : "price" ∈ (pipeline T).cols
    · apply filterIf_eq_self
      intro r hr
      rw [hcols]
      exact (hkeep r hr).2.2.1 (by rw [← hcols]; exact hprice)
    · exact filterIf_neg_eq _ _ _ hprice
  have hd : filterDate (pipeline T) = pipeline T := by
    by_cases hdate : "date_sold" ∈ (pipeline T).cols
    · apply filterIf_eq_self
      intro r hr
      rw [hcols]
      exact (hkeep r hr).2.2.2 (by rw [← hcols]; exact hdate)
    · exact filterIf_neg_eq _ _ _ hdate
  have hC : remove_invalid_rows (pipeline T) = pipeline T := by
    show filterDate (filterPrice (filterQty (pipeline T))) = pipeline T
    rw [hq, hp, hd]
  show remove_invalid_rows (handle_missing_values
    (clean_column_names (pipeline T))) = pipeline T
  rw [hA, hB, hC]

/-- C4 (witness): the amended idempotence theorem applied to a concrete
table with a `qty` column and one valid row. -/
theorem C4_witness :
    pipeline (pipeline { cols := ["qty"], rows := [[Value.num 1]] })
      = pipeline { cols := ["qty"], rows := [[Value.num 1]] } :=
  C4_pipeline_idem { cols := ["qty"], rows := [[Value.num 1]] } (by decide)

/-! ### Claim C1 -/

theorem keepNonNeg_iff (cols : List String) (c : String) (r : List Value) :
    keepNonNeg cols c r = true ↔
      ∃ n : Int, valueAt cols r c = Value.num n ∧ 0 ≤ n := by
  unfold keepNonNeg
  cases hv : valueAt cols r c with
  | str s => simp
  | num n => simp
  | null => simp

/-- C1 (counterexample): a row whose `qty` value is null is not
retained by the row validator — pandas `NaN >= 0` is false, so
`df[df['qty'] >= 0]` drops the row rather than keeping it. -/
theorem C1_counterexample :
    [Value.null] ∉
      (remove_invalid_rows (⟨["qty"], [[Value.null]]⟩ : Table)).rows := by
  decide

/-- C1 (amended): for a table with a `qty` (resp. `price`) column, that
validator filter retains a row iff the row's value there is a number
`≥ 0`; hence a row is dropped iff its value is negative, null, or not
a number, and in the validator's output every `qty`/`price` value is a
nonnegative number — never null. -/
theorem C1_nonneg_filter (T : Table) :
    ("qty" ∈ T.cols → ∀ r, r ∈ (filterQty T).rows ↔
      (r ∈ T.rows ∧ ∃ n : Int, valueAt T.cols r "qty" = Value.num n ∧ 0 ≤ n)) ∧
    ("price" ∈ T.cols → ∀ r, r ∈ (filterPrice T).rows ↔
      (r ∈ T.rows ∧ ∃ n : Int, valueAt T.cols r "price" = Value.num n ∧ 0 ≤ n)) ∧
    (∀ r, r ∈ (remove_invalid_rows T).rows →
      ("qty" ∈ T.cols →
        ∃ n : Int, valueAt T.cols r "qty" = Value.num n ∧ 0 ≤ n) ∧
      ("price" ∈ T.cols →
        ∃ n : Int, valueAt T.cols r "price" = Value.num n ∧ 0 ≤ n)) := by
  refine ⟨?_, ?_, ?_⟩
  · intro hq r
    unfold filterQty
    rw [mem_rows_filterIf_pos "qty" _ T hq r]
    rw [keepNonNeg_iff]
  · intro hp r
    unfold filterPrice
    rw [mem_rows_filterIf_pos "price" _ T hp r]
    rw [keepNonNeg_iff]
  · intro r hr
    have hk := remove_invalid_keep T r hr
    exact ⟨fun hq => (keepNonNeg_iff T.cols "qty" r).mp (hk.1 hq),
      fun hp => (keepNonNeg_iff T.cols "price" r).mp (hk.2.1 hp)⟩

/-- C1 (witness): the amended characterization applied to a singleton
table whose `qty` value is 3. -/
theorem C1_witness :
    [Value.num 3] ∈ (filterQty (⟨["qty"], [[Value.num 3]]⟩ : Table)).rows :=
  ((C1_nonneg_filter ⟨["qty"], [[Value.num 3]]⟩).1 (by decide)
    [Value.num 3]).mpr ⟨by decide, 3, by decide, by decide⟩

/-! ### Claim C2 -/

/-- C2 (counterexample): `load_data` checks the `.csv` extension before
existence, so a nonexistent path `"data.txt"` raises InvalidFormat,
not NotFound. -/
theorem C2_counterexample :
    load_data (fun _ => false) (fun _ => ⟨[], []⟩) "data.txt"
        = Except.error LoadErr.invalidFormat ∧
      LoadErr.invalidFormat ≠ LoadErr.notFound :=
  ⟨rfl, by decide⟩

/-- C2 (amended): `load_data` raises NotFound for every nonexistent
path that does end in `.csv`; it raises InvalidFormat exactly for the
paths not ending in `.csv`, whether or not they exist. -/
theorem C2_load_data (fsExists : String → Bool) (readCsv : String → Table)
    (p : String) :
    (csvSuffix p = true → fsExists p = false →
      load_data fsExists readCsv p = Except.error LoadErr.notFound) ∧
    (load_data fsExists readCsv p = Except.error LoadErr.invalidFormat ↔
      csvSuffix p = false) := by
  unfold load_data
  constructor
  · intro hcsv hex
    rw [if_neg (by simp [hcsv])]
    rw [if_pos (by simp [hex])]
  · by_cases hcsv : csvSuffix p = true
    · rw [if_neg (by simp [hcsv])]
      constructor
      · intro h
        by_cases hex : fsExists p = true
        · rw [if_neg (by simp [hex])] at h
          simp at h
        · rw [if_pos (by simp [Bool.eq_false_iff.mpr hex])] at h
          simp at h
      · intro h
        rw [hcsv] at h
        simp at h
    · have hcsv' : csvSuffix p = false := Bool.eq_false_iff.mpr hcsv
      rw [if_pos (by simp [hcsv'])]
      simp [hcsv']

/-- C2 (witness): the amended contract applied to a nonexistent
`.csv` path. -/
theorem C2_witness :
    load_data (fun _ => false) (fun _ => ⟨[], []⟩) "missing.csv"
      = Except.error LoadErr.notFound :=
  (C2_load_data (fun _ => false) (fun _ => ⟨[], []⟩) "missing.csv").1
    (by decide) rfl

/-! ### Claim C3 -/

/-- C3: the missing-value handler drops a (transformed) row exactly
when every critical column present in the table is null in that row;
the row is retained iff some present critical value is non-null. -/
theorem C3_critical_drop (T : Table) (r : List Value) (hr : r ∈ T.rows) :
    hmRow T.cols r ∈ (handle_missing_values T).rows ↔
      ∃ c, c ∈ criticalCols ∧ c ∈ T.cols ∧
        valueAt T.cols (hmRow T.cols r) c ≠ Value.null := by
  show hmRow T.cols r ∈
      (T.rows.map (hmRow T.cols)).filter (keepCritical T.cols) ↔ _
  rw [List.mem_filter]
  constructor
  · rintro ⟨_, hk⟩
    rcases List.any_eq_true.mp hk with ⟨c, hcmem, hcv⟩
    rcases List.mem_filter.mp hcmem with ⟨hcrit, hcol⟩
    exact ⟨c, hcrit, of_decide_eq_true hcol, of_decide_eq_true hcv⟩
  · rintro ⟨c, hcrit, hcol, hv⟩
    refine ⟨List.mem_map_of_mem _ hr, ?_⟩
    apply List.any_eq_true.mpr
    exact ⟨c, List.mem_filter.mpr ⟨hcrit, decide_eq_true hcol⟩,
      decide_eq_true hv⟩

/-- C3 (witness): a row with a non-null `qty` survives the handler. -/
theorem C3_witness :
    hmRow ["qty"] [Value.num 2] ∈
      (handle_missing_values (⟨["qty"], [[Value.num 2]]⟩ : Table)).rows :=
  (C3_critical_drop ⟨["qty"], [[Value.num 2]]⟩ [Value.num 2] (by decide)).mpr
    ⟨"qty", by decide, by decide, by decide⟩

/-! ### Claim C5 -/

/-- C5: the three row-validator filters are pairwise commuting
presence-guarded row predicates, so every one of the six application
orders produces the table of the implemented order
(qty, then price, then date_sold). -/
theorem C5_filter_order (T : Table) :
    filterPrice (filterDate (filterQty T)) = remove_invalid_rows T ∧
    filterDate (filterQty (filterPrice T)) = remove_invalid_rows T ∧
    filterQty (filterDate (filterPrice T)) = remove_invalid_rows T ∧
    filterPrice (filterQty (filterDate T)) = remove_invalid_rows T ∧
    filterQty (filterPrice (filterDate T)) = remove_invalid_rows T := by
  have cqp : ∀ U : Table, filterQty (filterPrice U) = filterPrice (filterQty U) := by
    intro U
    unfold filterQty filterPrice
    exact filterIf_comm _ _ _ _ U
  have cqd : ∀ U : Table, filterQty (filterDate U) = filterDate (filterQty U) := by
    intro U
    unfold filterQty filterDate
    exact filterIf_comm _ _ _ _ U
  have cpd : ∀ U : Table, filterPrice (filterDate U) = filterDate (filterPrice U) := by
    intro U
    unfold filterPrice filterDate
    exact filterIf_comm _ _ _ _ U
  unfold remove_invalid_rows
  refine ⟨cpd (filterQty T), congrArg filterDate (cqp T),
    (cqd (filterPrice T)).trans (congrArg filterDate (cqp T)),
    (congrArg filterPrice (cqd T)).trans (cpd (filterQty T)),
    (cqp (filterDate T)).trans
      ((congrArg filterPrice (cqd T)).trans (cpd (filterQty T)))⟩

/-! ### Claim C6 -/

/-- C6 (counterexample): in the spec's scenario the table reaching the
`date_sold` filter is already empty — row 2 is removed by the price
filter (its price was coerced to null, and null fails `>= 0`), so it
is not the `date_sold` filter that drops it. -/
theorem C6_counterexample :
    (filterPrice (filterQty (handle_missing_values scenarioTable))).rows
      = [] := by
  decide

/-- C6 (amended): the scenario output has 0 rows; row 1 is dropped by
the negative-qty filter and row 2 (price coerced to null, blank
`date_sold` converted to null) is dropped by the price filter, before
the `date_sold` filter runs. -/
theorem C6_scenario :
    (remove_invalid_rows (handle_missing_values scenarioTable)).rows = [] ∧
    (handle_missing_values scenarioTable).rows
      = [[Value.num 5, Value.num (-1), Value.str "2024-01-01"],
         [Value.null, Value.num 2, Value.null]] ∧
    (filterQty (handle_missing_values scenarioTable)).rows
      = [[Value.null, Value.num 2, Value.null]] ∧
    (filterPrice (filterQty (handle_missing_values scenarioTable))).rows
      = [] := by
  refine ⟨by decide, by decide, by decide, by decide⟩

/-! ### Claim C7 -/

/-- C7: after `clean_column_names` every column name has no uppercase
ASCII letter, no leading or trailing whitespace, and no space
character; and the header `" Product Name "` becomes `"product_name"`. -/
theorem C7_colnames (T : Table) :
    (∀ name ∈ (clean_column_names T).cols,
      (∀ c ∈ name.data, ¬(65 ≤ c.toNat ∧ c.toNat ≤ 90)) ∧
      (∀ c ∈ name.data.head?, pyWS c = false) ∧
      (∀ c ∈ name.data.getLast?, pyWS c = false) ∧
      ' ' ∉ name.data) ∧
    cleanName " Product Name " = "product_name" := by
  constructor
  · intro name hname
    rcases List.mem_map.mp hname with ⟨x, _, rfl⟩
    exact ⟨cleanName_not_upper x, head?_cleanName x, getLast?_cleanName x,
      cleanName_no_space x⟩
  · decide

/-- C7 (witness): the normalized header of the spec scenario really is
space-free. -/
theorem C7_witness : ' ' ∉ ("product_name" : String).data :=
  ((C7_colnames ⟨[" Product Name "], []⟩).1 "product_name" (by decide)).2.2.2

/-! ### Claim C8 -/

/-- C8: in a table with a `date_sold` column, every row surviving
`handle_missing_values` followed by `remove_invalid_rows` has a
non-null `date_sold` value. -/
theorem C8_date_nonnull (T : Table) (hd : "date_sold" ∈ T.cols)
    (r : List Value)
    (hr : r ∈ (remove_invalid_rows (handle_missing_values T)).rows) :
    valueAt T.cols r "date_sold" ≠ Value.null := by
  have hk := (remove_invalid_keep (handle_missing_values T) r hr).2.2 hd
  exact of_decide_eq_true hk

/-- C8 (witness): the date invariant at a concrete one-row table. -/
theorem C8_witness :
    valueAt ["date_sold"] [Value.str "2024-01-01"] "date_sold"
      ≠ Value.null :=
  C8_date_nonnull ⟨["date_sold"], [[Value.str "2024-01-01"]]⟩ (by decide)
    [Value.str "2024-01-01"] (by decide)

/-! ### Claim C9 -/

/-- C9: `clean_column_names` stringifies every `prodname`/`category`
cell before trimming and lowercasing, so those cells are never null
after the stage; a null becomes the literal text `"nan"`
(`cleanTextValue Value.null = "nan"`), which is not whitespace-only,
so the later blank-to-null conversion leaves it unchanged. -/
theorem C9_text_stringify (T : Table) (r : List Value) (hr : r ∈ T.rows) :
    cleanRowText (T.cols.map cleanName) r ∈ (clean_column_names T).rows ∧
    (∀ (j : Nat) (c : String) (v : Value),
      (T.cols.map cleanName)[j]? = some c → c ∈ textCols → r[j]? = some v →
      (cleanRowText (T.cols.map cleanName) r)[j]? = some (cleanTextValue v) ∧
      cleanTextValue v ≠ Value.null) ∧
    cleanTextValue Value.null = Value.str "nan" ∧
    blankToNull (Value.str "nan") = Value.str "nan" := by
  refine ⟨List.mem_map_of_mem _ hr, ?_, by decide, by decide⟩
  intro j c v hc htext hv
  constructor
  · have h := getElem?_zipWith_of
      (fun c v => if c ∈ textCols then cleanTextValue v else v)
      (T.cols.map cleanName) r j c v hc hv
    simp only [if_pos htext] at h
    exact h
  · simp [cleanTextValue]

/-- C9 (witness): a null `prodname` cell becomes the string produced by
`cleanTextValue`, i.e. `"nan"`. -/
theorem C9_witness :
    (cleanRowText (["prodname"].map cleanName) [Value.null])[0]?
      = some (cleanTextValue Value.null) :=
  ((C9_text_stringify ⟨["prodname"], [[Value.null]]⟩ [Value.null]
    (by decide)).2.1 0 "prodname" Value.null (by decide) (by decide)
    (by decide)).1

/-! ### Claim C10 -/

/-- C10: no stage reorders rows — `clean_column_names` maps the rows
one-to-one in place, the rows of `handle_missing_values` form a
sublist of its (cellwise-rewritten) input rows, and the rows of
`remove_invalid_rows` form a sublist of its input rows, so output rows
keep their input relative order. -/
theorem C10_order (T : Table) :
    (clean_column_names T).rows
      = T.rows.map (cleanRowText (T.cols.map cleanName)) ∧
    List.Sublist (handle_missing_values T).rows
      (T.rows.map (hmRow T.cols)) ∧
    List.Sublist (remove_invalid_rows T).rows T.rows :=
  ⟨rfl, List.filter_sublist _, rows_remove_invalid_sublist T⟩
